import Mathlib

set_option maxHeartbeats 1000000

deriving instance DecidableEq for Except

/-!
Shallow embedding of the exclave core: the event broadcaster
(src/unitbroadcaster.rs) and the scenario unit (src/units/scenario.rs).

Code of the repository that is not under src/ (unit.rs, unitmanager.rs,
units/test.rs) and the external dependency resolver (the `dependy` crate,
declared an external capability by the spec) are modelled from the spec and
clearly marked as such; everything else is transcribed from the source.
-/

/-- Modelled from the spec: the kind tag of a unit name (unit.rs is not under
src/); the spec lists jig, test and scenario as the unit kinds. -/
inductive UnitKind where
  | jig
  | test
  | scenario
deriving DecidableEq

/-- Modelled from the spec: parse a unit-kind tag from its textual form;
unknown kind strings fail construction. -/
def UnitKind.from_str (s : String) : Option UnitKind :=
  if s = "jig" then some .jig
  else if s = "test" then some .test
  else if s = "scenario" then some .scenario
  else none

/-- Modelled from the spec: render a unit kind as its textual tag. -/
def UnitKind.toString : UnitKind → String
  | .jig => "jig"
  | .test => "test"
  | .scenario => "scenario"

/-- Modelled from the spec: split a character list at every separator
satisfying the predicate, keeping empty pieces; the result is always
non-empty. -/
def split_chars (p : Char → Bool) : List Char → List (List Char)
  | [] => [[]]
  | c :: cs =>
      match split_chars p cs with
      | [] => if p c then [[], []] else [[c]]
      | piece :: pieces =>
          if p c then [] :: piece :: pieces else (c :: piece) :: pieces

/-- Modelled from the spec: split a string at every separator character
satisfying the predicate. -/
def split_string (p : Char → Bool) (s : String) : List String :=
  (split_chars p s.data).map (fun cs => String.mk cs)

/-- Modelled from the spec: rejoin name components around the `.`
separator. -/
def intercalate_dot : List String → String
  | [] => ""
  | [x] => x
  | x :: xs => x ++ "." ++ intercalate_dot xs

/-- Modelled from the spec: typed identity of a unit (unit.rs is not under
src/): a kind tag plus a base name; equality and hashing are by
(kind, name). -/
structure UnitName where
  kind : UnitKind
  name : String
deriving DecidableEq

/-- Modelled from the spec: render a unit name in the `kind.name` style the
spec's examples use (for instance `test.main`). -/
def UnitName.toString (u : UnitName) : String :=
  u.kind.toString ++ "." ++ u.name

/-- Modelled from the spec: construct a `UnitName` from a bare string plus an
expected-kind hint (unit.rs is not under src/). A `kind.name` style string
derives its kind from the leading tag, which must be a known kind; a bare
string takes the hinted kind; empty or malformed names fail construction. -/
def UnitName.from_str (s : String) (hint : UnitKind) : Option UnitName :=
  if s = "" then none
  else
    match split_string (fun c => c = '.') s with
    | [] => none
    | [n] => if n = "" then none else some ⟨hint, n⟩
    | k :: rest =>
        match UnitKind.from_str k with
        | none => none
        | some kind =>
            let n := intercalate_dot rest
            if n = "" then none else some ⟨kind, n⟩

/-- Modelled from the spec: construct a `UnitName` from a filesystem path
(unit.rs is not under src/): the kind is derived from the file extension and
the name from the stem; an invalid extension or a malformed name fails with
a descriptive reason, never a panic. -/
def UnitName.from_path (path : String) : Except String UnitName :=
  let file := (split_string (fun c => c = '/') path).getLastD ""
  let parts := split_string (fun c => c = '.') file
  if parts.length < 2 then .error ("path has no extension: " ++ path)
  else
    let ext := parts.getLastD ""
    let stem := intercalate_dot parts.dropLast
    if stem = "" then .error ("path has no stem: " ++ path)
    else
      match UnitKind.from_str ext with
      | none => .error ("unrecognized unit kind: " ++ ext)
      | some kind => .ok ⟨kind, stem⟩

/-- Modelled from the spec: the opaque control-message payload carried by
`UnitEvent::ManagerRequest`; the bus routes it without inspecting it
(unitmanager.rs is not under src/). -/
structure ManagerControlMessage where
  payload : String
deriving DecidableEq

/-- The closed set of per-unit lifecycle events (unitbroadcaster.rs lines
9-52); `PathBuf` payloads are modelled as path strings. -/
inductive UnitStatus where
  | Added (path : String)
  | Updated (path : String)
  | LoadStarted (path : String)
  | LoadFailed (reason : String)
  | Incompatible (reason : String)
  | Selected
  | Deselected
  | Active
  | ActivationFailed (reason : String)
  | DeactivatedSuccessfully (reason : String)
  | DeactivatedUnsuccessfully (reason : String)
  | UnloadStarted (path : String)
  | UpdateStarted (path : String)
  | Removed (path : String)
deriving DecidableEq

/-- A status event tagged by the owning unit (unitbroadcaster.rs lines
79-83). -/
structure UnitStatusEvent where
  name : UnitName
  status : UnitStatus
deriving DecidableEq

/-- Constructor `UnitStatusEvent::new_added` (unitbroadcaster.rs lines
95-105): derive the name from the path, returning `none` when the name
cannot be derived. -/
def UnitStatusEvent.new_added (path : String) : Option UnitStatusEvent :=
  match UnitName.from_path path with
  | .error _ => none
  | .ok name => some { name := name, status := .Added path }

/-- Constructor `UnitStatusEvent::new_updated` (unitbroadcaster.rs lines
106-116). -/
def UnitStatusEvent.new_updated (path : String) : Option UnitStatusEvent :=
  match UnitName.from_path path with
  | .error _ => none
  | .ok name => some { name := name, status := .Updated path }

/-- Constructor `UnitStatusEvent::new_removed` (unitbroadcaster.rs lines
117-127). -/
def UnitStatusEvent.new_removed (path : String) : Option UnitStatusEvent :=
  match UnitName.from_path path with
  | .error _ => none
  | .ok name => some { name := name, status := .Removed path }

/-- A category-wide announcement (unitbroadcaster.rs lines 209-213). -/
structure UnitCategoryEvent where
  kind : UnitKind
  status : String
deriving DecidableEq

/-- The union of events carried on the bus (unitbroadcaster.rs lines
230-252). -/
inductive UnitEvent where
  | Status (event : UnitStatusEvent)
  | Category (event : UnitCategoryEvent)
  | RescanRequest
  | RescanStart
  | RescanFinish
  | ManagerRequest (msg : ManagerControlMessage)
  | Shutdown
deriving DecidableEq

/-- One registered send-end of the bus. The source stores
`Sender<UnitEvent>` handles; a subscriber whose paired receive end has been
dropped is modelled by `alive = false`, and `sid` identifies the
subscription so deliveries can be attributed. -/
structure Subscriber where
  sid : Nat
  alive : Bool
deriving DecidableEq

/-- One iteration of the fan-out loop of `broadcast_core`
(unitbroadcaster.rs lines 269-274): a send to a live subscriber delivers a
clone of the event; a send to a dead subscriber fails and records that
index in `to_remove`, overwriting any previously recorded index. -/
def fan_step (event : UnitEvent) (acc : Option Nat × List (Nat × UnitEvent))
    (p : Nat × Subscriber) : Option Nat × List (Nat × UnitEvent) :=
  if p.2.alive then (acc.1, acc.2 ++ [(p.2.sid, event)])
  else (some p.1, acc.2)

/-- `UnitBroadcaster::broadcast_core` (unitbroadcaster.rs lines 264-281):
fan the event out to every registered subscriber in registration order,
then, if some send failed, remove the single recorded index. The result is
the subscriber list after the call together with the list of successful
deliveries (subscriber id, delivered event); the function is total — a dead
subscriber never yields an error. -/
def broadcast_core (senders : List Subscriber) (event : UnitEvent) :
    List Subscriber × List (Nat × UnitEvent) :=
  let fan := senders.enum.foldl (fan_step event) (none, [])
  match fan.1 with
  | none => (senders, fan.2)
  | some idx => (senders.eraseIdx idx, fan.2)

/-- The `Dependency` capability interface consumed by the resolver (spec §6):
a named node exposing ordered requirement, suggestion and provide lists. -/
structure Dependency where
  name : String
  requirements : List String
  suggestions : List String
  provides : List String
deriving DecidableEq

/-- `AssumptionDependency::new` (scenario.rs lines 20-36), presented through
its `Dependency` interface: the given name with empty requirements,
suggestions and provides. -/
def AssumptionDependency.new (name : String) : Dependency :=
  { name := name, requirements := [], suggestions := [], provides := [] }

/-- Modelled from the spec: a registered test seen as a dependency node
(units/test.rs is not under src/): its declared requirements, suggestions
and provides, exposed through the `Dependency` capability interface. -/
structure Test where
  dep : Dependency
deriving DecidableEq

/-- The external dependency resolver (the `dependy` crate; spec §6 declares
it an external capability consumed as a black box): from the graph's nodes
and the root names, either an ordered sequence of names or a failure
reason. -/
abbrev Resolver := List Dependency → List String → Except String (List String)

/-- Modelled from the spec: the manager-side view consumed by scenario
resolution (unitmanager.rs is not under src/): the shared test registry,
iterated in an arbitrary but fixed order, and the loaded-jig query. -/
structure UnitManager where
  tests : List (UnitName × Test)
  jig_is_loaded : UnitName → Bool

/-- `UnitManager::get_test` (modelled from the spec: an optional shared test
handle looked up by name). -/
def UnitManager.get_test (manager : UnitManager) (name : UnitName) : Option Test :=
  (manager.tests.find? (fun p => p.1 == name)).map (fun p => p.2)

/-- Modelled from the spec: error taxonomy of description parsing (unit.rs
is not under src/): a missing required section, or a malformed unit name in
a list directive. -/
inductive UnitDescriptionError where
  | MissingSection (sectionName : String)
  | MalformedUnitName (name : String)
deriving DecidableEq

/-- Modelled from the spec: why a scenario is incompatible (unit.rs is not
under src/): the declared jigs are absent, or the resolver reported an
unsatisfiable or cyclic dependency, wrapping its reason. -/
inductive UnitIncompatibleReason where
  | IncompatibleJig
  | DependencyError (reason : String)
deriving DecidableEq

/-- Modelled from the spec: activation failure carries a reason
(unit.rs is not under src/). -/
inductive UnitActivateError where
  | failed (reason : String)
deriving DecidableEq

/-- Modelled from the spec: deactivation failure carries a reason
(unit.rs is not under src/). -/
inductive UnitDeactivateError where
  | failed (reason : String)
deriving DecidableEq

/-- Modelled from the spec: split a comma/space-separated list directive
value into its entries. -/
def split_names (s : String) : List String :=
  (split_string (fun c => c = ',' || c = ' ') s).filter (fun t => t ≠ "")

/-- Modelled from the spec: construct each listed entry with the given kind
hint; any malformed entry fails the whole list. -/
def names_from_entries (hint : UnitKind) : List String → Except UnitDescriptionError (List UnitName)
  | [] => .ok []
  | t :: rest =>
      match UnitName.from_str t hint with
      | none => .error (.MalformedUnitName t)
      | some n =>
          match names_from_entries hint rest with
          | .error e => .error e
          | .ok ns => .ok (n :: ns)

/-- Modelled from the spec: `UnitName::from_list` (unit.rs is not under
src/): parse a comma/space-separated list of names of a hinted kind;
malformed entries fail the whole parse. -/
def UnitName.from_list (s : String) (hint : UnitKind) :
    Except UnitDescriptionError (List UnitName) :=
  names_from_entries hint (split_names s)

/-- One entry of a parsed unit-file section, as exposed by the external
systemd-style parser (spec §6: the core only consumes this directive view):
a solo key with an optional value, or a grouped entry the scenario loop
ignores. -/
inductive DirectiveEntry where
  | Solo (key : String) (value : Option String)
  | Many (entries : List (String × Option String))
deriving DecidableEq

/-- The parsed unit file as a mapping of section name to ordered directive
entries (spec §6). -/
structure UnitFile where
  sections : List (String × List DirectiveEntry)

/-- Section presence query of the parsed file view. -/
def UnitFile.has_category (f : UnitFile) (category : String) : Bool :=
  f.sections.any (fun p => p.1 == category)

/-- All entries of the named section, in order. -/
def UnitFile.lookup_by_category (f : UnitFile) (category : String) : List DirectiveEntry :=
  (f.sections.filter (fun p => p.1 == category)).foldl (fun acc p => acc ++ p.2) []

/-- Modelled from the spec: a timeout duration; the scenario parsing loop
never populates the timeout fields, so only its identity matters. -/
abbrev Duration := Nat

/-- The externally supplied configuration, unused by the scenario code
(`is_compatible` ignores its `Config` argument). -/
structure Config where
deriving DecidableEq

/-- In-memory representation of a .scenario file (scenario.rs lines
53-87). -/
structure ScenarioDescription where
  id : UnitName
  name : String
  description : String
  jigs : List UnitName
  tests : List UnitName
  assumptions : List UnitName
  timeout : Option Duration
  exec_stop_success : Option String
  exec_stop_success_timeout : Option Duration
  exec_stop_failure : Option String
  exec_stop_failure_timeout : Option Duration
deriving DecidableEq

/-- The freshly initialized description `from_path` starts from
(scenario.rs lines 102-117). -/
def ScenarioDescription.initial (unit_name : UnitName) : ScenarioDescription :=
  { id := unit_name
    name := ""
    description := ""
    jigs := []
    tests := []
    assumptions := []
    timeout := none
    exec_stop_success := none
    exec_stop_success_timeout := none
    exec_stop_failure := none
    exec_stop_failure_timeout := none }

/-- One iteration of the directive loop of `from_path` (scenario.rs lines
119-153): recognized solo keys populate their field, a malformed list value
fails, and everything else leaves the description unchanged. -/
def apply_entry (sd : ScenarioDescription) :
    DirectiveEntry → Except UnitDescriptionError ScenarioDescription
  | .Many _ => .ok sd
  | .Solo key value =>
      if key = "Name" then .ok { sd with name := value.getD "" }
      else if key = "Description" then .ok { sd with description := value.getD "" }
      else if key = "Jigs" then
        match value with
        | some s =>
            match UnitName.from_list s .jig with
            | .error e => .error e
            | .ok js => .ok { sd with jigs := js }
        | none => .ok { sd with jigs := [] }
      else if key = "Tests" then
        match value with
        | some s =>
            match UnitName.from_list s .test with
            | .error e => .error e
            | .ok ts => .ok { sd with tests := ts }
        | none => .ok { sd with tests := [] }
      else if key = "Assume" then
        match value with
        | some s =>
            match UnitName.from_list s .test with
            | .error e => .error e
            | .ok asms => .ok { sd with assumptions := asms }
        | none => .ok { sd with assumptions := [] }
      else .ok sd

/-- The directive loop of `from_path` (scenario.rs lines 119-153): fold the
section's entries over the initial description, failing the whole parse at
the first failing entry. -/
def process_entries (sd : ScenarioDescription) :
    List DirectiveEntry → Except UnitDescriptionError ScenarioDescription
  | [] => .ok sd
  | e :: rest =>
      match apply_entry sd e with
      | .error err => .error err
      | .ok sd2 => process_entries sd2 rest

/-- `ScenarioDescription::from_path` (scenario.rs lines 90-155) from the
point where the file has been read and parsed: the file read and the
systemd-style text parse are external per spec §6, so the function takes the
already-derived unit name and the parsed directive view. Requires the
"Scenario" section, then runs the directive loop. -/
def ScenarioDescription.from_path (unit_name : UnitName) (unit_file : UnitFile) :
    Except UnitDescriptionError ScenarioDescription :=
  if unit_file.has_category "Scenario" = false then
    .error (.MissingSection "Scenario")
  else
    process_entries (ScenarioDescription.initial unit_name)
      (unit_file.lookup_by_category "Scenario")

/-- The graph-construction loop of `get_test_order` (scenario.rs lines
202-217): one node per registry test, in registry order; a test named in
the assumption list contributes an `AssumptionDependency` built from the
name's rendering, any other test contributes its own `Dependency` view. -/
def build_graph (assumptions : List UnitName) (tests : List (UnitName × Test)) :
    List Dependency :=
  tests.foldl
    (fun graph p =>
      if p.1 ∈ assumptions then
        graph ++ [AssumptionDependency.new p.1.toString]
      else
        graph ++ [p.2.dep])
    []

/-- The back-translation loop of `get_test_order` (scenario.rs lines
225-235): parse each resolver-emitted name with kind hint "test" (a parse
failure is the source's `expect` panic, modelled as `none`) and keep it
exactly when it is not in the assumption list. -/
def translate_filter (assumptions : List UnitName) :
    List String → Option (List UnitName)
  | [] => some []
  | s :: rest =>
      match UnitName.from_str s .test with
      | none => none
      | some test_name =>
          match translate_filter assumptions rest with
          | none => none
          | some test_order =>
              some (if test_name ∈ assumptions then test_order
                    else test_name :: test_order)

/-- `ScenarioDescription::get_test_order` (scenario.rs lines 198-239):
build the graph over every registry test, resolve the scenario's explicit
test list, translate the resolved names back and filter out assumptions.
The outer `Option` models the source's panic on an untranslatable resolver
name; a resolver failure becomes a `DependencyError`. -/
def ScenarioDescription.get_test_order (resolve : Resolver)
    (self : ScenarioDescription) (manager : UnitManager) :
    Option (Except UnitIncompatibleReason (List UnitName)) :=
  let graph := build_graph self.assumptions manager.tests
  let test_names := self.tests.map UnitName.toString
  match resolve graph test_names with
  | .error e => some (.error (.DependencyError e))
  | .ok test_sequence_strings =>
      match translate_filter self.assumptions test_sequence_strings with
      | none => none
      | some test_order => some (.ok test_order)

/-- `ScenarioDescription::is_compatible` (scenario.rs lines 167-188): if at
least one jig is declared, some declared jig must be loaded (the source's
accumulating loop), else `IncompatibleJig`; then delegate to
`get_test_order`. -/
def ScenarioDescription.is_compatible (resolve : Resolver)
    (self : ScenarioDescription) (manager : UnitManager) (_config : Config) :
    Option (Except UnitIncompatibleReason (List UnitName)) :=
  if self.jigs.length > 0 then
    if (self.jigs.foldl (fun loaded jig_name => loaded || manager.jig_is_loaded jig_name)
        false) = false then
      some (.error .IncompatibleJig)
    else
      self.get_test_order resolve manager
  else
    self.get_test_order resolve manager

/-- The resolved, runnable scenario (scenario.rs lines 242-246): the
checked-out handles in execution order plus the name-to-handle map. -/
structure Scenario where
  name : UnitName
  test_sequence : List Test
  tests : List (UnitName × Test)
deriving DecidableEq

/-- Insertion into the name-to-handle map, with the `HashMap::insert`
replace-or-add semantics. -/
def map_insert (tests : List (UnitName × Test)) (k : UnitName) (v : Test) :
    List (UnitName × Test) :=
  if tests.any (fun p => p.1 == k) then
    tests.map (fun p => if p.1 == k then (k, v) else p)
  else
    tests ++ [(k, v)]

/-- The checkout loop of `Scenario::new` (scenario.rs lines 257-261): for
each name of the order, check the test out of the registry (a missing test
is the source's `expect` panic, modelled as `none`), appending the handle to
the sequence and inserting it into the map. -/
def checkout (manager : UnitManager) :
    List UnitName → List (UnitName × Test) → List Test →
    Option (List (UnitName × Test) × List Test)
  | [], tests, test_sequence => some (tests, test_sequence)
  | test_name :: rest, tests, test_sequence =>
      match manager.get_test test_name with
      | none => none
      | some t => checkout manager rest (map_insert tests test_name t) (test_sequence ++ [t])

/-- `Scenario::new` (scenario.rs lines 249-268): check out every test of the
order and package the sequence and map under the description's id. -/
def Scenario.new (desc : ScenarioDescription) (test_order : List UnitName)
    (manager : UnitManager) : Option Scenario :=
  match checkout manager test_order [] [] with
  | none => none
  | some (tests, test_sequence) =>
      some { name := desc.id, test_sequence := test_sequence, tests := tests }

/-- `ScenarioDescription::select` (scenario.rs lines 190-196): re-validate
compatibility and, on success, build the resolved `Scenario`. -/
def ScenarioDescription.select (resolve : Resolver)
    (self : ScenarioDescription) (manager : UnitManager) (config : Config) :
    Option (Except UnitIncompatibleReason Scenario) :=
  match self.is_compatible resolve manager config with
  | none => none
  | some (.error e) => some (.error e)
  | some (.ok test_order) =>
      match Scenario.new self test_order manager with
      | none => none
      | some scenario => some (.ok scenario)

/-- `Scenario::activate` (scenario.rs lines 270-272): takes the scenario by
shared reference, so the scenario value after the call is the same; returns
`Ok(())` unconditionally. -/
def Scenario.activate (self : Scenario) : Except UnitActivateError Unit × Scenario :=
  (.ok (), self)

/-- `Scenario::deactivate` (scenario.rs lines 274-276): takes the scenario
by shared reference, so the scenario value after the call is the same;
returns `Ok(())` unconditionally. -/
def Scenario.deactivate (self : Scenario) : Except UnitDeactivateError Unit × Scenario :=
  (.ok (), self)

/-- `Scenario::uses_test` (scenario.rs lines 278-280): membership query on
the name-to-handle map. -/
def Scenario.uses_test (self : Scenario) (test_name : UnitName) : Bool :=
  (self.tests.find? (fun p => p.1 == test_name)).isSome

/-- The index recorded in `to_remove` after the fan-out loop has walked the
remaining subscribers starting at index `n` with `r` already recorded: the
index of the last dead subscriber, if any. -/
def last_dead_from : Nat → List Subscriber → Option Nat → Option Nat
  | _, [], r => r
  | n, s :: rest, r => last_dead_from (n + 1) rest (if s.alive then r else some n)

/-- A concrete test fixture for evaluating the scenario pipeline. -/
def sample_test_a : Test := ⟨⟨"test.a", [], [], []⟩⟩

/-- A second concrete test fixture. -/
def sample_test_b : Test := ⟨⟨"test.b", [], [], []⟩⟩

/-- A concrete manager fixture: two registered tests, jig `J` loaded. -/
def sample_manager : UnitManager :=
  { tests := [(⟨.test, "a"⟩, sample_test_a), (⟨.test, "b"⟩, sample_test_b)]
    jig_is_loaded := fun j => j == ⟨.jig, "J"⟩ }

/-- A concrete resolver fixture that echoes the requested roots. -/
def echo_resolver : Resolver := fun _ names => .ok names

/-- A concrete scenario description fixture: both sample tests requested,
test `b` assumed. -/
def sample_desc : ScenarioDescription :=
  { ScenarioDescription.initial ⟨.scenario, "s"⟩ with
      tests := [⟨.test, "a"⟩, ⟨.test, "b"⟩]
      assumptions := [⟨.test, "b"⟩] }

theorem fan_fold_spec (event : UnitEvent) (l : List Subscriber) :
    ∀ (n : Nat) (r : Option Nat) (d : List (Nat × UnitEvent)),
    (List.enumFrom n l).foldl (fan_step event) (r, d)
      = (last_dead_from n l r,
         d ++ (l.filter (fun s => s.alive)).map (fun s => (s.sid, event))) := by
  induction l with
  | nil => intro n r d; simp [last_dead_from]
  | cons s rest ih =>
      intro n r d
      by_cases h : s.alive
      · simp [List.enumFrom, List.foldl_cons, fan_step, h, last_dead_from, ih]
      · simp [List.enumFrom, List.foldl_cons, fan_step, h, last_dead_from, ih]

theorem broadcast_core_fst (senders : List Subscriber) (event : UnitEvent) :
    (broadcast_core senders event).1
      = (match last_dead_from 0 senders none with
         | none => senders
         | some idx => senders.eraseIdx idx) := by
  unfold broadcast_core
  rw [show senders.enum = List.enumFrom 0 senders from rfl, fan_fold_spec]
  cases h : last_dead_from 0 senders none <;> simp [h]

theorem broadcast_core_snd (senders : List Subscriber) (event : UnitEvent) :
    (broadcast_core senders event).2
      = (senders.filter (fun s => s.alive)).map (fun s => (s.sid, event)) := by
  unfold broadcast_core
  rw [show senders.enum = List.enumFrom 0 senders from rfl, fan_fold_spec]
  cases last_dead_from 0 senders none <;> simp

theorem last_dead_from_of_all_alive (l : List Subscriber)
    (h : ∀ s ∈ l, s.alive = true) :
    ∀ (n : Nat) (r : Option Nat), last_dead_from n l r = r := by
  induction l with
  | nil => intro n r; rfl
  | cons s rest ih =>
      intro n r
      have hs : s.alive = true := h s (List.mem_cons_self s rest)
      simp only [last_dead_from, hs, if_pos]
      exact ih (fun x hx => h x (List.mem_cons_of_mem s hx)) (n + 1) r

theorem last_dead_from_last (l₁ : List Subscriber) (t : Subscriber)
    (post : List Subscriber) (ht : t.alive = false)
    (hpost : ∀ x ∈ post, x.alive = true) :
    ∀ (n : Nat) (r : Option Nat),
    last_dead_from n (l₁ ++ t :: post) r = some (n + l₁.length) := by
  induction l₁ with
  | nil =>
      intro n r
      simp [last_dead_from, ht, last_dead_from_of_all_alive post hpost]
  | cons a l ih =>
      intro n r
      simp only [List.cons_append, last_dead_from]
      rw [show l.append (t :: post) = l ++ t :: post from rfl, ih]
      congr 1
      simp
      omega

theorem erase_at_middle {α : Type} (l₁ : List α) (x : α) (l₂ : List α) :
    (l₁ ++ x :: l₂).eraseIdx l₁.length = l₁ ++ l₂ := by
  induction l₁ with
  | nil => rfl
  | cons a l ih => simp [List.eraseIdx, ih]

/-- C3: `broadcast` delivers exactly one clone of the event to each live
subscriber, in registration order; a subscriber whose receive end has been
dropped (here: the unique dead subscriber) is removed from the list during
the call; and with every subscriber live the list is untouched.
`broadcast_core` is a total function, so no error or panic is possible. -/
theorem broadcast_delivers_and_prunes (senders : List Subscriber) (event : UnitEvent) :
    ((broadcast_core senders event).2
        = (senders.filter (fun s => s.alive)).map (fun s => (s.sid, event)))
    ∧ ((∀ s ∈ senders, s.alive = true) → (broadcast_core senders event).1 = senders)
    ∧ (∀ pre dead post, senders = pre ++ dead :: post → dead.alive = false →
        (∀ s ∈ pre, s.alive = true) → (∀ s ∈ post, s.alive = true) →
        (broadcast_core senders event).1 = pre ++ post) := by
  refine ⟨broadcast_core_snd senders event, ?_, ?_⟩
  · intro h
    rw [broadcast_core_fst, last_dead_from_of_all_alive senders h]
  · intro pre dead post hdecomp hdead hpre hpost
    subst hdecomp
    rw [broadcast_core_fst, last_dead_from_last pre dead post hdead hpost]
    simp only [Nat.zero_add]
    exact erase_at_middle pre dead post

theorem broadcast_delivers_and_prunes_witness :
    (broadcast_core [⟨0, true⟩, ⟨1, false⟩, ⟨2, true⟩] .RescanRequest).1
      = [⟨0, true⟩, ⟨2, true⟩]
    ∧ (broadcast_core [⟨5, true⟩] .Shutdown).1 = [⟨5, true⟩] :=
  ⟨(broadcast_delivers_and_prunes [⟨0, true⟩, ⟨1, false⟩, ⟨2, true⟩] .RescanRequest).2.2
      [⟨0, true⟩] ⟨1, false⟩ [⟨2, true⟩] rfl rfl (by decide) (by decide),
   (broadcast_delivers_and_prunes [⟨5, true⟩] .Shutdown).2.1 (by decide)⟩

/-- C4 counterexample: with subscribers 0 and 1 both dead and subscriber 2
live, a single broadcast removes index 1 — the last failing index — so the
resulting list still contains the first dead subscriber 0 and is not the
list the claim (removal of the first failing index) predicts. -/
theorem broadcast_first_dead_counterexample :
    (broadcast_core [⟨0, false⟩, ⟨1, false⟩, ⟨2, true⟩] .RescanRequest).1
        = [⟨0, false⟩, ⟨2, true⟩]
    ∧ (broadcast_core [⟨0, false⟩, ⟨1, false⟩, ⟨2, true⟩] .RescanRequest).1
        ≠ [⟨1, false⟩, ⟨2, true⟩] := by
  constructor
  · decide
  · decide

/-- C4 (amended): when two or more registered subscribers have dropped
their receive ends before a broadcast call, that single call removes only
the last failing index from the subscriber list, leaving every other dead
subscriber (all of which sit at earlier indices) registered until later
broadcast calls prune them one per call. -/
theorem broadcast_removes_last_dead (event : UnitEvent)
    (pre mid post : List Subscriber) (s t : Subscriber)
    (_hs : s.alive = false) (ht : t.alive = false)
    (hpost : ∀ x ∈ post, x.alive = true) :
    (broadcast_core (pre ++ s :: mid ++ t :: post) event).1 = pre ++ s :: mid ++ post
    ∧ s ∈ (broadcast_core (pre ++ s :: mid ++ t :: post) event).1 := by
  have hmain : (broadcast_core (pre ++ s :: mid ++ t :: post) event).1
      = pre ++ s :: mid ++ post := by
    rw [broadcast_core_fst]
    have hre : pre ++ s :: mid ++ t :: post = (pre ++ s :: mid) ++ t :: post := by
      simp
    rw [hre, last_dead_from_last (pre ++ s :: mid) t post ht hpost]
    simp only [Nat.zero_add]
    rw [erase_at_middle (pre ++ s :: mid) t post]
  refine ⟨hmain, ?_⟩
  rw [hmain]
  simp

theorem broadcast_removes_last_dead_witness :
    (broadcast_core [⟨0, false⟩, ⟨1, false⟩, ⟨2, true⟩] .RescanRequest).1
      = [⟨0, false⟩, ⟨2, true⟩] :=
  (broadcast_removes_last_dead .RescanRequest [] [] [⟨2, true⟩] ⟨0, false⟩ ⟨1, false⟩
    rfl rfl (by decide)).1

theorem build_graph_go (assumptions : List UnitName) (tests : List (UnitName × Test)) :
    ∀ acc : List Dependency,
    tests.foldl
      (fun graph p =>
        if p.1 ∈ assumptions then
          graph ++ [AssumptionDependency.new p.1.toString]
        else
          graph ++ [p.2.dep])
      acc
    = acc ++ tests.map (fun p =>
        if p.1 ∈ assumptions then AssumptionDependency.new p.1.toString
        else p.2.dep) := by
  induction tests with
  | nil => intro acc; simp
  | cons p rest ih =>
      intro acc
      by_cases h : p.1 ∈ assumptions
      · simp [List.foldl_cons, h, ih]
      · simp [List.foldl_cons, h, ih]

theorem translate_filter_excludes (assumptions : List UnitName) :
    ∀ (strings : List String) (test_order : List UnitName),
    translate_filter assumptions strings = some test_order →
    ∀ n ∈ test_order, n ∉ assumptions := by
  intro strings
  induction strings with
  | nil =>
      intro test_order h
      simp [translate_filter] at h
      subst h
      intro n hn
      simp at hn
  | cons s rest ih =>
      intro test_order h
      simp only [translate_filter] at h
      cases hp : UnitName.from_str s .test with
      | none => rw [hp] at h; exact absurd h (by simp)
      | some test_name =>
          rw [hp] at h
          cases hr : translate_filter assumptions rest with
          | none => rw [hr] at h; exact absurd h (by simp)
          | some rest_order =>
              rw [hr] at h
              simp only [Option.some_inj] at h
              by_cases hm : test_name ∈ assumptions
              · rw [if_pos hm] at h
                subst h
                exact ih rest_order hr
              · rw [if_neg hm] at h
                subst h
                intro n hn
                rcases List.mem_cons.mp hn with h1 | h2
                · subst h1; exact hm
                · exact ih rest_order hr n h2

/-- C1: `get_test_order` builds the dependency graph over every test of the
manager's registry, replacing each test named in the scenario's assumption
list by a synthetic assumption node with empty requirements, suggestions and
provides, and filters every assumed name out of the returned order, so the
returned order never contains an assumed test's name. -/
theorem get_test_order_assumption_handling (resolve : Resolver)
    (self : ScenarioDescription) (manager : UnitManager) :
    (build_graph self.assumptions manager.tests
      = manager.tests.map (fun p =>
          if p.1 ∈ self.assumptions then AssumptionDependency.new p.1.toString
          else p.2.dep))
    ∧ (∀ test_order, self.get_test_order resolve manager = some (.ok test_order) →
        ∀ n ∈ test_order, n ∉ self.assumptions) := by
  constructor
  · unfold build_graph
    rw [build_graph_go]
    rfl
  · intro test_order h
    simp only [ScenarioDescription.get_test_order] at h
    cases hres : resolve (build_graph self.assumptions manager.tests)
        (self.tests.map UnitName.toString) with
    | error e => simp [hres] at h
    | ok strings =>
        simp only [hres] at h
        cases htr : translate_filter self.assumptions strings with
        | none => simp [htr] at h
        | some order =>
            simp only [htr] at h
            simp only [Option.some_inj, Except.ok.injEq] at h
            subst h
            exact translate_filter_excludes self.assumptions strings order htr

theorem get_test_order_assumption_handling_witness :
    (⟨UnitKind.test, "a"⟩ : UnitName) ∉ sample_desc.assumptions :=
  (get_test_order_assumption_handling echo_resolver sample_desc sample_manager).2
    [⟨UnitKind.test, "a"⟩] (by decide) ⟨UnitKind.test, "a"⟩ (by decide)

theorem foldl_or_any (f : UnitName → Bool) (l : List UnitName) :
    ∀ b : Bool, l.foldl (fun acc j => acc || f j) b = (b || l.any f) := by
  induction l with
  | nil => intro b; simp
  | cons x rest ih =>
      intro b
      simp [List.foldl_cons, ih, Bool.or_assoc]

/-- C2: with a non-empty jig list and none of the declared jigs loaded,
`is_compatible` fails with `IncompatibleJig` for every resolver, i.e.
without consulting the dependency resolver; with an empty jig list or at
least one declared jig loaded, it returns exactly the result of
`get_test_order`. -/
theorem is_compatible_jig_gating (self : ScenarioDescription)
    (manager : UnitManager) (config : Config) :
    (self.jigs ≠ [] → (∀ j ∈ self.jigs, manager.jig_is_loaded j = false) →
      ∀ resolve : Resolver,
        self.is_compatible resolve manager config = some (.error .IncompatibleJig))
    ∧ (∀ resolve : Resolver,
        (self.jigs = [] ∨ ∃ j ∈ self.jigs, manager.jig_is_loaded j = true) →
        self.is_compatible resolve manager config
          = self.get_test_order resolve manager) := by
  constructor
  · intro hne hnone resolve
    have hlen : self.jigs.length > 0 := List.length_pos.mpr hne
    have hany : self.jigs.any manager.jig_is_loaded = false := by
      rw [List.any_eq_false]
      intro j hj
      simp [hnone j hj]
    unfold ScenarioDescription.is_compatible
    rw [if_pos hlen, foldl_or_any, hany]
    simp
  · intro resolve hcase
    unfold ScenarioDescription.is_compatible
    rcases hcase with hemp | ⟨j, hj, hload⟩
    · rw [hemp]
      simp
    · have hany : self.jigs.any manager.jig_is_loaded = true :=
        List.any_eq_true.mpr ⟨j, hj, hload⟩
      have hlen : self.jigs.length > 0 :=
        List.length_pos.mpr (List.ne_nil_of_mem hj)
      rw [if_pos hlen, foldl_or_any, hany]
      simp

theorem is_compatible_jig_gating_witness :
    (ScenarioDescription.is_compatible echo_resolver
        { sample_desc with jigs := [⟨UnitKind.jig, "X"⟩] } sample_manager ⟨⟩
      = some (.error .IncompatibleJig))
    ∧ (ScenarioDescription.is_compatible echo_resolver
        { sample_desc with jigs := [⟨UnitKind.jig, "J"⟩] } sample_manager ⟨⟩
      = ScenarioDescription.get_test_order echo_resolver
          { sample_desc with jigs := [⟨UnitKind.jig, "J"⟩] } sample_manager) :=
  ⟨(is_compatible_jig_gating { sample_desc with jigs := [⟨UnitKind.jig, "X"⟩] }
      sample_manager ⟨⟩).1 (by decide) (by decide) echo_resolver,
   (is_compatible_jig_gating { sample_desc with jigs := [⟨UnitKind.jig, "J"⟩] }
      sample_manager ⟨⟩).2 echo_resolver
     (Or.inr ⟨⟨UnitKind.jig, "J"⟩, by decide, by decide⟩)⟩

theorem map_insert_mem {tests : List (UnitName × Test)} {n : UnitName} {t : Test} :
    ∀ q ∈ map_insert tests n t, q = (n, t) ∨ q ∈ tests := by
  intro q hq
  unfold map_insert at hq
  by_cases hany : tests.any (fun p => p.1 == n)
  · rw [if_pos hany] at hq
    rcases List.mem_map.mp hq with ⟨p, hp, heq⟩
    by_cases hpk : (p.1 == n) = true
    · left; rw [← heq]; simp [hpk]
    · right; rw [← heq]; simp only [hpk]; simpa using hp
  · rw [if_neg hany] at hq
    rcases List.mem_append.mp hq with h | h
    · right; exact h
    · left; simpa using h

theorem map_insert_self (tests : List (UnitName × Test)) (n : UnitName) (t : Test) :
    (n, t) ∈ map_insert tests n t := by
  unfold map_insert
  by_cases hany : tests.any (fun p => p.1 == n)
  · rw [if_pos hany]
    rcases List.any_eq_true.mp hany with ⟨p, hp, hpk⟩
    exact List.mem_map.mpr ⟨p, hp, by simp [hpk]⟩
  · rw [if_neg hany]
    simp

theorem map_insert_mem_of_ne {tests : List (UnitName × Test)} {k n : UnitName}
    {v t : Test} (hk : (k, v) ∈ tests) (hne : k ≠ n) :
    (k, v) ∈ map_insert tests n t := by
  unfold map_insert
  by_cases hany : tests.any (fun p => p.1 == n)
  · rw [if_pos hany]
    refine List.mem_map.mpr ⟨(k, v), hk, ?_⟩
    simp [hne]
  · rw [if_neg hany]
    exact List.mem_append_left _ hk

theorem map_insert_key (tests : List (UnitName × Test)) (n : UnitName) (t : Test)
    (k : UnitName) :
    (∃ p ∈ map_insert tests n t, p.1 = k) ↔ ((∃ p ∈ tests, p.1 = k) ∨ k = n) := by
  constructor
  · rintro ⟨q, hq, hqk⟩
    rcases map_insert_mem q hq with h | h
    · right; rw [← hqk, h]
    · left; exact ⟨q, h, hqk⟩
  · rintro (⟨p, hp, hpk⟩ | hk)
    · obtain ⟨pk, pv⟩ := p
      simp only at hpk
      by_cases hne : pk = n
      · refine ⟨(n, t), map_insert_self tests n t, ?_⟩
        show n = k
        rw [← hne]
        exact hpk
      · exact ⟨(pk, pv), map_insert_mem_of_ne hp hne, hpk⟩
    · exact ⟨(n, t), map_insert_self tests n t, hk.symm⟩

theorem checkout_ok_spec (manager : UnitManager) :
    ∀ (order : List UnitName) (tests₀ : List (UnitName × Test)) (seq₀ : List Test)
      (T : List (UnitName × Test)) (S : List Test),
    checkout manager order tests₀ seq₀ = some (T, S) →
    S = seq₀ ++ order.filterMap manager.get_test
    ∧ (∀ n ∈ order, (manager.get_test n).isSome)
    ∧ (∀ k, (∃ p ∈ T, p.1 = k) ↔ ((∃ p ∈ tests₀, p.1 = k) ∨ k ∈ order)) := by
  intro order
  induction order with
  | nil =>
      intro tests₀ seq₀ T S h
      simp only [checkout, Option.some_inj, Prod.mk.injEq] at h
      obtain ⟨hT, hS⟩ := h
      subst hT; subst hS
      refine ⟨by simp, by simp, ?_⟩
      intro k
      simp
  | cons n rest ih =>
      intro tests₀ seq₀ T S h
      simp only [checkout] at h
      cases hg : manager.get_test n with
      | none => simp [hg] at h
      | some t =>
          simp only [hg] at h
          obtain ⟨hS, hdom, hkeys⟩ := ih (map_insert tests₀ n t) (seq₀ ++ [t]) T S h
          refine ⟨?_, ?_, ?_⟩
          · rw [hS]
            simp [List.filterMap_cons, hg]
          · intro m hm
            rcases List.mem_cons.mp hm with h1 | h2
            · subst h1; simp [hg]
            · exact hdom m h2
          · intro k
            rw [hkeys k, map_insert_key]
            simp only [List.mem_cons]
            exact or_assoc

theorem checkout_consistency (manager : UnitManager) :
    ∀ (order : List UnitName) (tests₀ : List (UnitName × Test)) (seq₀ : List Test)
      (T : List (UnitName × Test)) (S : List Test),
    (∀ p ∈ tests₀, manager.get_test p.1 = some p.2) →
    (∀ p ∈ tests₀, p.2 ∈ seq₀) →
    (∀ v ∈ seq₀, ∃ k, (k, v) ∈ tests₀) →
    checkout manager order tests₀ seq₀ = some (T, S) →
    (∀ p ∈ T, p.2 ∈ S) ∧ (∀ v ∈ S, ∃ k, (k, v) ∈ T) := by
  intro order
  induction order with
  | nil =>
      intro tests₀ seq₀ T S hinv hval hseq h
      simp only [checkout, Option.some_inj, Prod.mk.injEq] at h
      obtain ⟨hT, hS⟩ := h
      subst hT; subst hS
      exact ⟨hval, hseq⟩
  | cons n rest ih =>
      intro tests₀ seq₀ T S hinv hval hseq h
      simp only [checkout] at h
      cases hg : manager.get_test n with
      | none => simp [hg] at h
      | some t =>
          simp only [hg] at h
          refine ih (map_insert tests₀ n t) (seq₀ ++ [t]) T S ?_ ?_ ?_ h
          · intro p hp
            rcases map_insert_mem p hp with h1 | h1
            · subst h1; exact hg
            · exact hinv p h1
          · intro p hp
            rcases map_insert_mem p hp with h1 | h1
            · subst h1; simp
            · exact List.mem_append_left _ (hval p h1)
          · intro v hv
            rcases List.mem_append.mp hv with h1 | h1
            · obtain ⟨k, hk⟩ := hseq v h1
              by_cases hne : k = n
              · subst hne
                have hv2 : manager.get_test k = some v := hinv (k, v) hk
                rw [hg] at hv2
                obtain rfl : t = v := by simpa using hv2
                exact ⟨k, map_insert_self tests₀ k t⟩
              · exact ⟨k, map_insert_mem_of_ne hk hne⟩
            · have hvt : v = t := by simpa using h1
              rw [hvt]
              exact ⟨n, map_insert_self tests₀ n t⟩

/-- C5: after `select` succeeds with the resolved, assumption-filtered test
order, the returned `Scenario` uses exactly the names of that order, its
execution sequence is the checked-out handles in exactly the order's
sequence, every handle of the sequence is present in the map, and the map
contains no handle absent from the sequence. -/
theorem select_scenario_consistency (resolve : Resolver)
    (self : ScenarioDescription) (manager : UnitManager) (config : Config)
    (scenario : Scenario) (test_order : List UnitName)
    (hsel : self.select resolve manager config = some (.ok scenario))
    (hord : self.is_compatible resolve manager config = some (.ok test_order)) :
    (∀ test_name, scenario.uses_test test_name = true ↔ test_name ∈ test_order)
    ∧ scenario.test_sequence = test_order.filterMap manager.get_test
    ∧ (∀ test_name ∈ test_order, (manager.get_test test_name).isSome)
    ∧ (∀ t ∈ scenario.test_sequence, ∃ k, (k, t) ∈ scenario.tests)
    ∧ (∀ p ∈ scenario.tests, p.2 ∈ scenario.test_sequence) := by
  simp only [ScenarioDescription.select, hord] at hsel
  cases hnew : Scenario.new self test_order manager with
  | none => simp [hnew] at hsel
  | some sc =>
      simp only [hnew, Option.some_inj, Except.ok.injEq] at hsel
      subst hsel
      simp only [Scenario.new] at hnew
      cases hco : checkout manager test_order [] [] with
      | none => simp [hco] at hnew
      | some pair =>
          obtain ⟨T, S⟩ := pair
          simp only [hco, Option.some_inj] at hnew
          obtain ⟨hS, hdom, hkeys⟩ := checkout_ok_spec manager test_order [] [] T S hco
          obtain ⟨hval1, hval2⟩ := checkout_consistency manager test_order [] [] T S
            (by simp) (by simp) (by simp) hco
          subst hnew
          refine ⟨?_, by simpa using hS, hdom, ?_, ?_⟩
          · intro test_name
        
            unfold Scenario.uses_test
            rw [Option.isSome_iff_exists]
            constructor
            · rintro ⟨p, hp⟩
              have hmem := List.mem_of_find?_eq_some hp
              have hbeq := List.find?_some hp
              have hk : p.1 = test_name := by simpa using hbeq
              have := (hkeys test_name).mp ⟨p, hmem, hk⟩
              simpa using this
            · intro hmem
              have hx := (hkeys test_name).mpr (Or.inr hmem)
              obtain ⟨p, hp, hpk⟩ := hx
              have : (List.find? (fun p => p.1 == test_name) T).isSome := by
                rw [List.find?_isSome]
                exact ⟨p, hp, by simp [hpk]⟩
              rwa [Option.isSome_iff_exists] at this
          · intro t ht
            obtain ⟨k, hk⟩ := hval2 t ht
            exact ⟨k, hk⟩
          · exact hval1

theorem select_scenario_consistency_witness :
    Scenario.uses_test
      ⟨⟨UnitKind.scenario, "s"⟩, [sample_test_a], [(⟨UnitKind.test, "a"⟩, sample_test_a)]⟩
      ⟨UnitKind.test, "a"⟩ = true :=
  ((select_scenario_consistency echo_resolver sample_desc sample_manager ⟨⟩
      ⟨⟨UnitKind.scenario, "s"⟩, [sample_test_a], [(⟨UnitKind.test, "a"⟩, sample_test_a)]⟩
      [⟨UnitKind.test, "a"⟩] (by decide) (by decide)).1 ⟨UnitKind.test, "a"⟩).mpr
    (by decide)

theorem apply_entry_unknown (sd : ScenarioDescription) (key : String)
    (value : Option String) (h1 : key ≠ "Name") (h2 : key ≠ "Description")
    (h3 : key ≠ "Jigs") (h4 : key ≠ "Tests") (h5 : key ≠ "Assume") :
    apply_entry sd (.Solo key value) = .ok sd := by
  simp [apply_entry, h1, h2, h3, h4, h5]

theorem process_entries_insert_unknown (key : String) (value : Option String)
    (h1 : key ≠ "Name") (h2 : key ≠ "Description") (h3 : key ≠ "Jigs")
    (h4 : key ≠ "Tests") (h5 : key ≠ "Assume") :
    ∀ (pre post : List DirectiveEntry) (sd : ScenarioDescription),
    process_entries sd (pre ++ .Solo key value :: post) = process_entries sd (pre ++ post) := by
  intro pre
  induction pre with
  | nil =>
      intro post sd
      simp [process_entries, apply_entry_unknown sd key value h1 h2 h3 h4 h5]
  | cons e rest ih =>
      intro post sd
      simp only [List.cons_append, process_entries]
      cases h : apply_entry sd e with
      | error err => rfl
      | ok sd2 => exact ih post sd2

/-- C7: a directive in the "Scenario" section whose key is not one of Name,
Description, Jigs, Tests, Assume neither fails the parse nor changes any
field: the parse result is identical to the one from the same file with
that directive absent. -/
theorem from_path_ignores_unknown_directives (unit_name : UnitName)
    (f1 f2 : UnitFile) (key : String) (value : Option String)
    (pre post : List DirectiveEntry)
    (h1 : key ≠ "Name") (h2 : key ≠ "Description") (h3 : key ≠ "Jigs")
    (h4 : key ≠ "Tests") (h5 : key ≠ "Assume")
    (hcat : f1.has_category "Scenario" = f2.has_category "Scenario")
    (hl1 : f1.lookup_by_category "Scenario" = pre ++ .Solo key value :: post)
    (hl2 : f2.lookup_by_category "Scenario" = pre ++ post) :
    ScenarioDescription.from_path unit_name f1
      = ScenarioDescription.from_path unit_name f2 := by
  unfold ScenarioDescription.from_path
  rw [hcat, hl1, hl2]
  by_cases hc : f2.has_category "Scenario" = false
  · rw [if_pos hc, if_pos hc]
  · rw [if_neg hc, if_neg hc]
    exact process_entries_insert_unknown key value h1 h2 h3 h4 h5 pre post _

theorem from_path_ignores_unknown_directives_witness :
    ScenarioDescription.from_path ⟨UnitKind.scenario, "s"⟩
        ⟨[("Scenario", [.Solo "Bogus" (some "z"), .Solo "Name" (some "n")])]⟩
      = ScenarioDescription.from_path ⟨UnitKind.scenario, "s"⟩
        ⟨[("Scenario", [.Solo "Name" (some "n")])]⟩ :=
  from_path_ignores_unknown_directives ⟨UnitKind.scenario, "s"⟩
    ⟨[("Scenario", [.Solo "Bogus" (some "z"), .Solo "Name" (some "n")])]⟩
    ⟨[("Scenario", [.Solo "Name" (some "n")])]⟩
    "Bogus" (some "z") [] [.Solo "Name" (some "n")]
    (by decide) (by decide) (by decide) (by decide) (by decide)
    (by decide) (by decide) (by decide)

theorem process_entries_poison (bad : DirectiveEntry)
    (hbad : ∀ sd : ScenarioDescription, ∃ err, apply_entry sd bad = .error err) :
    ∀ (pre post : List DirectiveEntry) (sd : ScenarioDescription),
    ∃ err, process_entries sd (pre ++ bad :: post) = .error err := by
  intro pre
  induction pre with
  | nil =>
      intro post sd
      obtain ⟨err, herr⟩ := hbad sd
      exact ⟨err, by simp [process_entries, herr]⟩
  | cons e rest ih =>
      intro post sd
      simp only [List.cons_append, process_entries]
      cases h : apply_entry sd e with
      | error err => exact ⟨err, rfl⟩
      | ok sd2 => exact ih post sd2

theorem apply_entry_malformed (key s : String) (hint : UnitKind)
    (e : UnitDescriptionError)
    (hkey : (key = "Jigs" ∧ hint = .jig) ∨ (key = "Tests" ∧ hint = .test)
      ∨ (key = "Assume" ∧ hint = .test))
    (hbad : UnitName.from_list s hint = .error e) :
    ∀ sd, apply_entry sd (.Solo key (some s)) = .error e := by
  intro sd
  rcases hkey with ⟨hk, hh⟩ | ⟨hk, hh⟩ | ⟨hk, hh⟩ <;> subst hk <;> subst hh <;>
    simp [apply_entry, hbad]

/-- C6: `from_path` fails with `MissingSection` when the parsed file has no
"Scenario" section, and fails (returning an error rather than any
partially-populated description — the return type admits no partial
success) when any Jigs/Tests/Assume directive in the section carries a
malformed unit-name list. -/
theorem from_path_failure_modes (unit_name : UnitName) (unit_file : UnitFile) :
    (unit_file.has_category "Scenario" = false →
      ScenarioDescription.from_path unit_name unit_file
        = .error (.MissingSection "Scenario"))
    ∧ (∀ (pre post : List DirectiveEntry) (key s : String) (hint : UnitKind)
        (e : UnitDescriptionError),
        unit_file.lookup_by_category "Scenario" = pre ++ .Solo key (some s) :: post →
        ((key = "Jigs" ∧ hint = .jig) ∨ (key = "Tests" ∧ hint = .test)
          ∨ (key = "Assume" ∧ hint = .test)) →
        UnitName.from_list s hint = .error e →
        ∃ err, ScenarioDescription.from_path unit_name unit_file = .error err) := by
  constructor
  · intro h
    simp [ScenarioDescription.from_path, h]
  · intro pre post key s hint e hl hkey hbad
    unfold ScenarioDescription.from_path
    by_cases hc : unit_file.has_category "Scenario" = false
    · exact ⟨.MissingSection "Scenario", by rw [if_pos hc]⟩
    · rw [if_neg hc, hl]
      exact process_entries_poison (.Solo key (some s))
        (fun sd => ⟨e, apply_entry_malformed key s hint e hkey hbad sd⟩) pre post _

theorem from_path_failure_modes_witness :
    (ScenarioDescription.from_path ⟨UnitKind.scenario, "s"⟩ ⟨[("Other", [])]⟩
        = .error (.MissingSection "Scenario"))
    ∧ (ScenarioDescription.from_path ⟨UnitKind.scenario, "s"⟩
        ⟨[("Scenario", [.Solo "Jigs" (some "bogus.x")])]⟩).isOk = false := by
  constructor
  · exact (from_path_failure_modes ⟨UnitKind.scenario, "s"⟩ ⟨[("Other", [])]⟩).1
      (by decide)
  · obtain ⟨err, herr⟩ :=
      (from_path_failure_modes ⟨UnitKind.scenario, "s"⟩
          ⟨[("Scenario", [.Solo "Jigs" (some "bogus.x")])]⟩).2
        [] [] "Jigs" "bogus.x" .jig (.MalformedUnitName "bogus.x")
        (by decide) (by decide) (by decide)
    rw [herr]
    rfl

theorem apply_entry_preserves_timeouts (sd : ScenarioDescription)
    (entry : DirectiveEntry) (sd2 : ScenarioDescription)
    (h : apply_entry sd entry = .ok sd2) :
    sd2.timeout = sd.timeout
    ∧ sd2.exec_stop_success = sd.exec_stop_success
    ∧ sd2.exec_stop_success_timeout = sd.exec_stop_success_timeout
    ∧ sd2.exec_stop_failure = sd.exec_stop_failure
    ∧ sd2.exec_stop_failure_timeout = sd.exec_stop_failure_timeout := by
  cases entry with
  | Many es =>
      simp only [apply_entry, Except.ok.injEq] at h
      subst h
      exact ⟨rfl, rfl, rfl, rfl, rfl⟩
  | Solo key value =>
      simp only [apply_entry] at h
      split_ifs at h
      all_goals try split at h
      all_goals try split at h
      all_goals
        first
          | (simp only [Except.ok.injEq] at h
             subst h
             exact ⟨rfl, rfl, rfl, rfl, rfl⟩)
          | exact Except.noConfusion h

theorem process_entries_preserves_timeouts :
    ∀ (entries : List DirectiveEntry) (sd d : ScenarioDescription),
    process_entries sd entries = .ok d →
    d.timeout = sd.timeout
    ∧ d.exec_stop_success = sd.exec_stop_success
    ∧ d.exec_stop_success_timeout = sd.exec_stop_success_timeout
    ∧ d.exec_stop_failure = sd.exec_stop_failure
    ∧ d.exec_stop_failure_timeout = sd.exec_stop_failure_timeout := by
  intro entries
  induction entries with
  | nil =>
      intro sd d h
      simp only [process_entries, Except.ok.injEq] at h
      subst h
      exact ⟨rfl, rfl, rfl, rfl, rfl⟩
  | cons e rest ih =>
      intro sd d h
      simp only [process_entries] at h
      cases ha : apply_entry sd e with
      | error err => simp [ha] at h
      | ok sd2 =>
          simp only [ha] at h
          obtain ⟨t1, t2, t3, t4, t5⟩ := apply_entry_preserves_timeouts sd e sd2 ha
          obtain ⟨u1, u2, u3, u4, u5⟩ := ih sd2 d h
          exact ⟨u1.trans t1, u2.trans t2, u3.trans t3, u4.trans t4, u5.trans t5⟩

/-- C8: every description returned by `from_path` has `timeout`,
`exec_stop_success`, `exec_stop_success_timeout`, `exec_stop_failure` and
`exec_stop_failure_timeout` all equal to `none`: no directive of the
parsing loop ever populates these fields. -/
theorem from_path_never_sets_timeouts (unit_name : UnitName)
    (unit_file : UnitFile) (d : ScenarioDescription)
    (h : ScenarioDescription.from_path unit_name unit_file = .ok d) :
    d.timeout = none
    ∧ d.exec_stop_success = none
    ∧ d.exec_stop_success_timeout = none
    ∧ d.exec_stop_failure = none
    ∧ d.exec_stop_failure_timeout = none := by
  unfold ScenarioDescription.from_path at h
  by_cases hc : unit_file.has_category "Scenario" = false
  · rw [if_pos hc] at h
    exact absurd h (by simp)
  · rw [if_neg hc] at h
    have hpres := process_entries_preserves_timeouts _ _ _ h
    simpa [ScenarioDescription.initial] using hpres

theorem from_path_never_sets_timeouts_witness :
    ({ ScenarioDescription.initial ⟨UnitKind.scenario, "s"⟩ with
        name := "n" } : ScenarioDescription).timeout = none :=
  (from_path_never_sets_timeouts ⟨UnitKind.scenario, "s"⟩
      ⟨[("Scenario", [.Solo "Name" (some "n")])]⟩
      { ScenarioDescription.initial ⟨UnitKind.scenario, "s"⟩ with name := "n" }
      (by decide)).1

/-- C9: `activate` and `deactivate` unconditionally return `Ok(())` for
every `Scenario`, never an error, and leave the scenario — its name, tests
and test sequence — unchanged. -/
theorem activate_deactivate_trivial (s : Scenario) :
    s.activate.1 = .ok () ∧ s.activate.2 = s
    ∧ s.deactivate.1 = .ok () ∧ s.deactivate.2 = s :=
  ⟨rfl, rfl, rfl, rfl⟩

/-- C10: `new_added`, `new_updated` and `new_removed` return `none` (never
a partially built event) exactly when `UnitName::from_path` fails on the
path, and otherwise return an event whose name is the derived `UnitName`
and whose status carries exactly that path. -/
theorem new_status_events_follow_name (path : String) :
    ((∃ e, UnitName.from_path path = .error e) →
        UnitStatusEvent.new_added path = none
        ∧ UnitStatusEvent.new_updated path = none
        ∧ UnitStatusEvent.new_removed path = none)
    ∧ (∀ n, UnitName.from_path path = .ok n →
        UnitStatusEvent.new_added path = some ⟨n, .Added path⟩
        ∧ UnitStatusEvent.new_updated path = some ⟨n, .Updated path⟩
        ∧ UnitStatusEvent.new_removed path = some ⟨n, .Removed path⟩) := by
  constructor
  · rintro ⟨e, he⟩
    refine ⟨?_, ?_, ?_⟩ <;>
      simp [UnitStatusEvent.new_added, UnitStatusEvent.new_updated,
        UnitStatusEvent.new_removed, he]
  · intro n hn
    refine ⟨?_, ?_, ?_⟩ <;>
      simp [UnitStatusEvent.new_added, UnitStatusEvent.new_updated,
        UnitStatusEvent.new_removed, hn]

theorem new_status_events_follow_name_witness :
    UnitStatusEvent.new_added "foo.test"
        = some ⟨⟨UnitKind.test, "foo"⟩, .Added "foo.test"⟩
    ∧ UnitStatusEvent.new_added "foo" = none :=
  ⟨((new_status_events_follow_name "foo.test").2 ⟨UnitKind.test, "foo"⟩ (by decide)).1,
   ((new_status_events_follow_name "foo").1
      ⟨"path has no extension: foo", by decide⟩).1⟩
